import Mathlib

/-!
Verification of the incremental arXiv crawler
(`src/1.fetch_paper_arxiv.py`, function `fetch_all_domains_metadata_robust`
and its helpers).  Timestamps are modelled as integers counting minutes
(UTC), so `timedelta(days=d)` is `d * 1440` and `timedelta(minutes=1)` is `1`.
Parsed JSON/YAML documents are modelled by the `JVal` type below, with the
Python truthiness and `dict.get` semantics made explicit.
-/

/-- A parsed JSON/YAML value, as produced by `json.load` / `yaml.safe_load`.
Objects are association lists with distinct keys (Python dicts). -/
inductive JVal where
  | null
  | bool (b : Bool)
  | num (n : Int)
  | str (s : String)
  | arr (xs : List JVal)
  | obj (kvs : List (String × JVal))

/-- Python truthiness of a value: `None`, `False`, `0`, `""`, `[]`, `{}` are
falsy, everything else is truthy. -/
def pyTruthy : JVal → Bool
  | .null => false
  | .bool b => b
  | .num n => n != 0
  | .str s => s != ""
  | .arr xs => !xs.isEmpty
  | .obj kvs => !kvs.isEmpty

/-- Whether the value is a Python dict (only dicts have a `.get` method). -/
def JVal.isObj : JVal → Bool
  | .obj _ => true
  | _ => false

/-- Whether the value is Python `None`. -/
def JVal.isNull : JVal → Bool
  | .null => true
  | _ => false

/-- `dict.get(k)`: the value stored under `k`, or `None` when absent.
Modelled on association lists with unique keys, so the first hit is the hit. -/
def pyGetD (kvs : List (String × JVal)) (k : String) : JVal :=
  match kvs.find? (fun kv => kv.1 == k) with
  | some kv => kv.2
  | none => .null

/-- Python `str()` of a value.  The exact textual representation of
containers is abstracted (no claim depends on it); scalars follow CPython. -/
def pyStr : JVal → String
  | .null => "None"
  | .bool true => "True"
  | .bool false => "False"
  | .num n => toString n
  | .str s => s
  | .arr _ => "[...]"
  | .obj _ => "\x7b...\x7d"

/-- Python `int()` applied to a value: integers pass through, booleans map
to 0/1, strings are parsed (whitespace tolerated), everything else raises
(`none` models the raised `TypeError`/`ValueError`). -/
def pyInt : JVal → Option Int
  | .num n => some n
  | .bool b => some (if b then 1 else 0)
  | .str s => s.trim.toInt?
  | _ => none

/-- The observable content of a state/config file on disk: absent, present
but unreadable or not valid JSON/YAML, or successfully parsed to a value. -/
inductive FileContent where
  | missing
  | invalid
  | json (v : JVal)

/-- The `config.yaml` source as seen by `load_config`: absent, PyYAML not
importable, unreadable/unparseable, or parsed to a document. -/
inductive ConfigFile where
  | missing
  | noYaml
  | invalid
  | parsed (v : JVal)

/-- `load_config` (lines 22-36): returns the parsed document when it is a
dict, and the empty dict on a missing file, a missing PyYAML dependency, a
read/parse failure, or a non-dict (or falsy) document. -/
def load_config : ConfigFile → List (String × JVal)
  | .missing => []
  | .noYaml => []
  | .invalid => []
  | .parsed v =>
    match v with
    | .obj kvs => kvs
    | _ => []

/-- `resolve_days_window` (lines 39-51).  The paper-specific key
`arxiv_paper_setting.days_window` is read first; only when its value is
`None` is `crawler.days_window` read.  `int(value)` failures fall back to
`max(default_days, 1)`; an integer value `n` yields `max(n, 1)`.  A truthy
non-dict under either section key makes the subsequent `.get` raise an
uncaught `AttributeError`, modelled by `Except.error`. -/
def resolve_days_window (default_days : Int) (file : ConfigFile) : Except String Int :=
  let config := load_config file
  let psVal := pyGetD config "arxiv_paper_setting"
  let ps := if pyTruthy psVal then psVal else .obj []
  let csVal := pyGetD config "crawler"
  let cs := if pyTruthy csVal then csVal else .obj []
  match ps with
  | .obj psKvs =>
    let v := pyGetD psKvs "days_window"
    if v.isNull then
      match cs with
      | .obj csKvs =>
        match pyInt (pyGetD csKvs "days_window") with
        | some n => .ok (max n 1)
        | none => .ok (max default_days 1)
      | _ => .error "AttributeError"
    else
      match pyInt v with
      | some n => .ok (max n 1)
      | none => .ok (max default_days 1)
  | _ => .error "AttributeError"

/-- `load_last_crawl_at` (lines 54-71).  `parseDt` models
`datetime.fromisoformat` composed with the `Z` replacement and UTC
normalization; it returns `none` where the library call raises.  The
`payload.get` call sits outside the `try`, so a truthy non-dict payload
raises an uncaught `AttributeError`. -/
def load_last_crawl_at (parseDt : String → Option Int) :
    FileContent → Except String (Option Int)
  | .missing => .ok none
  | .invalid => .ok none
  | .json v =>
    let payload := if pyTruthy v then v else .obj []
    match payload with
    | .obj kvs =>
      let rawVal := pyGetD kvs "last_crawl_at"
      let raw := (if pyTruthy rawVal then pyStr rawVal else "").trim
      if raw == "" then .ok none
      else .ok (parseDt raw)
    | _ => .error "AttributeError"

/-- `load_seen_state` (lines 81-106).  Same `AttributeError` caveat as
`load_last_crawl_at`: only the open/`json.load` step is inside the `try`. -/
def load_seen_state (parseDt : String → Option Int) :
    FileContent → Except String (List String × Option Int)
  | .missing => .ok ([], none)
  | .invalid => .ok ([], none)
  | .json v =>
    let payload := if pyTruthy v then v else .obj []
    match payload with
    | .obj kvs =>
      let rawIds0 := pyGetD kvs "ids"
      let rawIds1 := if pyTruthy rawIds0 then rawIds0 else .arr []
      let idList := match rawIds1 with | .arr xs => xs | _ => []
      let seenIds :=
        (((idList.map (fun i => (pyStr i).trim)).filter (fun s => s ≠ "")).dedup)
      let rawLatest0 := pyGetD kvs "latest_published_at"
      let rawLatest := (if pyTruthy rawLatest0 then pyStr rawLatest0 else "").trim
      let latest := if rawLatest == "" then none else parseDt rawLatest
      .ok (seenIds, latest)
    | _ => .error "AttributeError"

/-- Whether an `Except` computation returned normally. -/
def exceptOk {ε α : Type} : Except ε α → Bool
  | .ok _ => true
  | .error _ => false

/-! ## The crawl loop (`fetch_all_domains_metadata_robust`, lines 134-269) -/

/-- One result object yielded by `client.results(search)`.  `publishedDt` is
`some t` exactly when `r.published` is a `datetime` (already normalized to
UTC minutes); `publishedStr` models `str(r.published)`. -/
structure ArxivResult where
  shortId : String
  entryId : String
  title : String
  summary : String
  authors : List String
  primaryCategory : String
  categories : List String
  publishedDt : Option Int
  publishedStr : String
  pdfUrl : Option String
deriving DecidableEq, Repr

/-- One harvested record as placed in `unique_papers` (lines 207-217). -/
structure PaperRecord where
  id : String
  source : String
  title : String
  abstract : String
  authors : List String
  primaryCategory : String
  categories : List String
  published : String
  link : String
deriving DecidableEq, Repr

/-- Build the `paper_dict` for a result (lines 206-217), including the
`pdf_url or entry_id` fallback (an absent or empty `pdf_url` is falsy). -/
def makeRecord (r : ArxivResult) : PaperRecord :=
  { id := r.shortId
    source := "arxiv"
    title := r.title.replace "\n" " "
    abstract := r.summary.replace "\n" " "
    authors := r.authors
    primaryCategory := r.primaryCategory
    categories := r.categories
    published := r.publishedStr
    link :=
      match r.pdfUrl with
      | some u => if u == "" then r.entryId else u
      | none => r.entryId }

/-- What one category's upstream query yields: either a full result list,
or the results yielded before an exception was raised mid-pagination. -/
inductive FetchOutcome where
  | ok (results : List ArxivResult)
  | err (yielded : List ArxivResult)
deriving Repr

/-- The results actually delivered by the iterator for an outcome. -/
def outcomeResults : FetchOutcome → List ArxivResult
  | .ok rs => rs
  | .err rs => rs

/-- The in-memory state threaded through the category loop: the (growing)
seen-id set, the insertion-ordered `unique_papers` dict, the running
`max_published_new`, and the `time.sleep(5)` backoffs taken so far. -/
structure LoopState where
  seenIds : List String
  uniquePapers : List (String × PaperRecord)
  maxPublishedNew : Option Int
  backoffs : List Nat
deriving Repr

/-- Update of `max_published_new` (lines 222-228): only a `datetime`
`published` participates, and only strict increases replace the maximum. -/
def updateMax (cur : Option Int) (pub : Option Int) : Option Int :=
  match pub with
  | none => cur
  | some t =>
    match cur with
    | none => some t
    | some m => if t > m then some t else some m

/-- Processing of a single result inside the `for r in client.results`
loop (lines 195-228): skip ids already seen across runs, skip ids already
collected this run, otherwise append to `unique_papers`, add to
`seen_ids`, and update `max_published_new`. -/
def processResult (st : LoopState) (r : ArxivResult) : LoopState :=
  if r.shortId ∈ st.seenIds then st
  else if r.shortId ∈ st.uniquePapers.map Prod.fst then st
  else
    { st with
      uniquePapers := st.uniquePapers ++ [(r.shortId, makeRecord r)]
      seenIds := r.shortId :: st.seenIds
      maxPublishedNew := updateMax st.maxPublishedNew r.publishedDt }

/-- Processing of one category (lines 178-240): every yielded result is
processed; when the iterator raised, the `except` arm logs and sleeps 5
seconds before the loop moves to the next category. -/
def processCategory (st : LoopState) (o : FetchOutcome) : LoopState :=
  let st1 := (outcomeResults o).foldl processResult st
  match o with
  | .ok _ => st1
  | .err _ => { st1 with backoffs := st1.backoffs ++ [5] }

/-- The loop state at the top of the category loop: the seen-ids loaded at
run start, an empty `unique_papers` dict and no `max_published_new`. -/
def initLoop (seen0 : List String) : LoopState :=
  { seenIds := seen0, uniquePapers := [], maxPublishedNew := none, backoffs := [] }

/-- The full category loop. -/
def runCategories (seen0 : List String) (outcomes : List FetchOutcome) : LoopState :=
  outcomes.foldl processCategory (initLoop seen0)

/-- One minute is the model's time unit, so a day is 1440 units. -/
def minutesPerDay : Int := 1440

/-- The persisted crawl state: the seen-ledger (`arxiv_seen.json`: ids and
`latest_published_at`) plus the last-run marker (`crawl_state.json`). -/
structure CrawlState where
  seenIds : List String
  latestPublishedAt : Option Int
  lastCrawlAt : Option Int
deriving Repr

/-- Window-start resolution (lines 141-159): prefer
`latest_published_at`, then `last_crawl_at`, then `now - days`; clamp to at
most `days` of lookback; force `now - 1` minute when the result would not
precede `now`. -/
def resolveStart (now days : Int) (latest lastRun : Option Int) : Int :=
  let start0 :=
    match latest with
    | some t => t
    | none =>
      match lastRun with
      | some t => t
      | none => now - days * minutesPerDay
  let start1 := max start0 (now - days * minutesPerDay)
  if start1 ≥ now then now - 1 else start1

/-- Everything observable about one run: the resolved query window, the
merged output collection (the values of `unique_papers`, with their keys),
the state persisted at run end, whether the batch file was written, and
whether the zero-result warning was logged. -/
structure RunOutput where
  window : Int × Int
  papers : List (String × PaperRecord)
  state : CrawlState
  outputWritten : Bool
  warnedNoPapers : Bool
  backoffs : List Nat
deriving Repr

/-- `fetch_all_domains_metadata_robust` (lines 134-269) over an abstract
upstream: `outcomes` lists, category by category, what the paginated query
yielded.  The batch file is written only when `unique_papers` is non-empty
(lines 246-263); the seen-state keeps the loaded `latest_published_at`
when no new record carried a `datetime` (lines 264-267); the last-run
marker is always set to `end_date` (line 268). -/
def fetchRun (st0 : CrawlState) (days now : Int) (outcomes : List FetchOutcome) :
    RunOutput :=
  let endDate := now
  let startDate := resolveStart now days st0.latestPublishedAt st0.lastCrawlAt
  let ls := runCategories st0.seenIds outcomes
  let written := !ls.uniquePapers.isEmpty
  let savedLatest :=
    match ls.maxPublishedNew with
    | some t => some t
    | none => st0.latestPublishedAt
  { window := (startDate, endDate)
    papers := ls.uniquePapers
    state :=
      { seenIds := ls.seenIds
        latestPublishedAt := savedLatest
        lastCrawlAt := some endDate }
    outputWritten := written
    warnedNoPapers := !written
    backoffs := ls.backoffs }

/-! ## Helper lemmas about the loop -/

/-- A predicate preserved by every fold step holds after the fold. -/
theorem foldlInv {α σ : Type _} (f : σ → α → σ) (P : σ → Prop)
    (step : ∀ s a, P s → P (f s a)) :
    ∀ (l : List α) (s : σ), P s → P (l.foldl f s) := by
  intro l
  induction l with
  | nil => intro s h; exact h
  | cons a t ih => intro s h; exact ih (f s a) (step s a h)

theorem processResult_skip_of_seen {st : LoopState} {r : ArxivResult}
    (h : r.shortId ∈ st.seenIds) : processResult st r = st := by
  unfold processResult
  rw [if_pos h]

theorem processResult_skip_of_key {st : LoopState} {r : ArxivResult}
    (h : r.shortId ∈ st.uniquePapers.map Prod.fst) : processResult st r = st := by
  unfold processResult
  by_cases h1 : r.shortId ∈ st.seenIds
  · rw [if_pos h1]
  · rw [if_neg h1, if_pos h]

theorem processResult_emit {st : LoopState} {r : ArxivResult}
    (h1 : r.shortId ∉ st.seenIds) (h2 : r.shortId ∉ st.uniquePapers.map Prod.fst) :
    processResult st r =
      { st with
        uniquePapers := st.uniquePapers ++ [(r.shortId, makeRecord r)]
        seenIds := r.shortId :: st.seenIds
        maxPublishedNew := updateMax st.maxPublishedNew r.publishedDt } := by
  unfold processResult
  rw [if_neg h1, if_neg h2]

theorem processResult_backoffs (st : LoopState) (r : ArxivResult) :
    (processResult st r).backoffs = st.backoffs := by
  by_cases h1 : r.shortId ∈ st.seenIds
  · rw [processResult_skip_of_seen h1]
  · by_cases h2 : r.shortId ∈ st.uniquePapers.map Prod.fst
    · rw [processResult_skip_of_key h2]
    · rw [processResult_emit h1 h2]

theorem processResult_papers_mono (st : LoopState) (r : ArxivResult) :
    st.uniquePapers <+: (processResult st r).uniquePapers := by
  by_cases h1 : r.shortId ∈ st.seenIds
  · rw [processResult_skip_of_seen h1]
  · by_cases h2 : r.shortId ∈ st.uniquePapers.map Prod.fst
    · rw [processResult_skip_of_key h2]
    · rw [processResult_emit h1 h2]
      exact List.prefix_append _ _

theorem processResult_seen_mono {x : String} (st : LoopState) (r : ArxivResult)
    (h : x ∈ st.seenIds) : x ∈ (processResult st r).seenIds := by
  by_cases h1 : r.shortId ∈ st.seenIds
  · rw [processResult_skip_of_seen h1]; exact h
  · by_cases h2 : r.shortId ∈ st.uniquePapers.map Prod.fst
    · rw [processResult_skip_of_key h2]; exact h
    · rw [processResult_emit h1 h2]
      exact List.mem_cons_of_mem _ h

/-- `processCategory` only appends to `backoffs` beyond the inner fold. -/
theorem processCategory_seen_eq (st : LoopState) (o : FetchOutcome) :
    (processCategory st o).seenIds =
      ((outcomeResults o).foldl processResult st).seenIds := by
  cases o <;> rfl

theorem processCategory_papers_eq (st : LoopState) (o : FetchOutcome) :
    (processCategory st o).uniquePapers =
      ((outcomeResults o).foldl processResult st).uniquePapers := by
  cases o <;> rfl

theorem processCategory_max_eq (st : LoopState) (o : FetchOutcome) :
    (processCategory st o).maxPublishedNew =
      ((outcomeResults o).foldl processResult st).maxPublishedNew := by
  cases o <;> rfl

/-- A predicate on the seen/papers/max fields (ignoring backoffs) that is
preserved by every result step is preserved by every category step. -/
theorem processCategory_inv (P : LoopState → Prop)
    (hres : ∀ st r, P st → P (processResult st r))
    (hback : ∀ st, P st → P { st with backoffs := st.backoffs ++ [5] })
    (st : LoopState) (o : FetchOutcome) (h : P st) : P (processCategory st o) := by
  have h1 : P ((outcomeResults o).foldl processResult st) :=
    foldlInv processResult P hres (outcomeResults o) st h
  cases o with
  | ok rs => exact h1
  | err rs => exact hback _ h1

theorem catFoldlInv (P : LoopState → Prop)
    (hres : ∀ st r, P st → P (processResult st r))
    (hback : ∀ st, P st → P { st with backoffs := st.backoffs ++ [5] })
    (outs : List FetchOutcome) (st : LoopState) (h : P st) :
    P (outs.foldl processCategory st) :=
  foldlInv processCategory P (fun s o hs => processCategory_inv P hres hback s o hs) outs st h

theorem foldlR_seen_mono {x : String} (rs : List ArxivResult) (st : LoopState)
    (h : x ∈ st.seenIds) : x ∈ (rs.foldl processResult st).seenIds :=
  foldlInv processResult (fun s => x ∈ s.seenIds)
    (fun s r hs => processResult_seen_mono s r hs) rs st h

theorem foldlC_seen_mono {x : String} (outs : List FetchOutcome) (st : LoopState)
    (h : x ∈ st.seenIds) : x ∈ (outs.foldl processCategory st).seenIds :=
  catFoldlInv (fun s => x ∈ s.seenIds)
    (fun s r hs => processResult_seen_mono s r hs) (fun _ hs => hs) outs st h

theorem foldlR_papers_mono (rs : List ArxivResult) (st : LoopState) :
    st.uniquePapers <+: (rs.foldl processResult st).uniquePapers :=
  foldlInv processResult (fun s => st.uniquePapers <+: s.uniquePapers)
    (fun s r hs => hs.trans (processResult_papers_mono s r)) rs st (List.prefix_refl _)

theorem foldlC_papers_mono (outs : List FetchOutcome) (st : LoopState) :
    st.uniquePapers <+: (outs.foldl processCategory st).uniquePapers :=
  catFoldlInv (fun s => st.uniquePapers <+: s.uniquePapers)
    (fun s r hs => hs.trans (processResult_papers_mono s r)) (fun _ hs => hs)
    outs st (List.prefix_refl _)

/-- Every key of `unique_papers` has already been added to `seen_ids`. -/
def keysSubSeen (st : LoopState) : Prop :=
  ∀ x ∈ st.uniquePapers.map Prod.fst, x ∈ st.seenIds

theorem keysSubSeen_step (st : LoopState) (r : ArxivResult) (h : keysSubSeen st) :
    keysSubSeen (processResult st r) := by
  by_cases h1 : r.shortId ∈ st.seenIds
  · rw [processResult_skip_of_seen h1]; exact h
  · by_cases h2 : r.shortId ∈ st.uniquePapers.map Prod.fst
    · rw [processResult_skip_of_key h2]; exact h
    · rw [processResult_emit h1 h2]
      intro x hx
      simp only [List.map_append, List.map_cons, List.map_nil, List.mem_append,
        List.mem_cons, List.not_mem_nil, or_false] at hx
      rcases hx with hx | hx
      · exact List.mem_cons_of_mem _ (h x hx)
      · exact hx ▸ List.mem_cons_self _ _

theorem keysSubSeen_init (seen0 : List String) : keysSubSeen (initLoop seen0) := by
  intro x hx
  simp [initLoop] at hx

/-! ## Window resolution (C2) -/

/-- Formulation of the window-start rule in the words of spec section 4.3:
take `latest_seen_published_at`, else `last_run_at`, else `now - days`;
clamp to `max(start, now - days)`; force `now - 1` minute when
`start >= now`. -/
def resolveStartSpec (now days : Int) (latest lastRun : Option Int) : Int :=
  let s0 := (latest.orElse (fun _ => lastRun)).getD (now - days * minutesPerDay)
  let s1 := max s0 (now - days * minutesPerDay)
  if s1 ≥ now then now - 1 else s1

theorem resolveStart_eq_spec (now days : Int) (latest lastRun : Option Int) :
    resolveStart now days latest lastRun = resolveStartSpec now days latest lastRun := by
  cases latest <;> cases lastRun <;> rfl

theorem resolveStart_lt (now days : Int) (latest lastRun : Option Int) :
    resolveStart now days latest lastRun < now := by
  unfold resolveStart
  dsimp only
  split
  · omega
  · exact not_le.mp (by assumption)

/-- Claim C2: the resolved query window is exactly the spec's priority
chain (latest published, else last run, else `now - days`), clamped to at
most `days` of lookback and forced to `now - 1` minute when at or past
`now`, with `end = now`; the resolved start is always strictly before the
end. -/
theorem window_resolution_correct (st0 : CrawlState) (days now : Int)
    (outs : List FetchOutcome) :
    (fetchRun st0 days now outs).window =
      (resolveStartSpec now days st0.latestPublishedAt st0.lastCrawlAt, now) ∧
    (fetchRun st0 days now outs).window.1 < (fetchRun st0 days now outs).window.2 := by
  constructor
  · show (resolveStart now days st0.latestPublishedAt st0.lastCrawlAt, now) = _
    rw [resolveStart_eq_spec]
  · exact resolveStart_lt now days st0.latestPublishedAt st0.lastCrawlAt

/-! ## Cross-run dedup (C1) -/

/-- Claim C1: an identifier contained in the seen-ids loaded at run start
is never emitted again: it appears neither among the keys of the run's
output collection nor is it dropped from the persisted seen-ids. -/
theorem seen_ids_never_reemitted (st0 : CrawlState) (days now : Int)
    (outs : List FetchOutcome) (pid : String) (h : pid ∈ st0.seenIds) :
    pid ∉ (fetchRun st0 days now outs).papers.map Prod.fst ∧
    pid ∈ (fetchRun st0 days now outs).state.seenIds := by
  have key := catFoldlInv
    (fun s => pid ∈ s.seenIds ∧ pid ∉ s.uniquePapers.map Prod.fst)
    (fun st r hp => by
      obtain ⟨hs, hk⟩ := hp
      by_cases h1 : r.shortId ∈ st.seenIds
      · rw [processResult_skip_of_seen h1]; exact ⟨hs, hk⟩
      · by_cases h2 : r.shortId ∈ st.uniquePapers.map Prod.fst
        · rw [processResult_skip_of_key h2]; exact ⟨hs, hk⟩
        · rw [processResult_emit h1 h2]
          refine ⟨List.mem_cons_of_mem _ hs, ?_⟩
          simp only [List.map_append, List.map_cons, List.map_nil, List.mem_append,
            List.mem_cons, List.not_mem_nil, or_false]
          rintro (hx | hx)
          · exact hk hx
          · exact h1 (hx ▸ hs))
    (fun st hp => hp)
    outs (initLoop st0.seenIds) ⟨h, by simp [initLoop]⟩
  exact ⟨key.2, key.1⟩

/-- A concrete upstream result used by the witnesses below. -/
def mkRes (pid : String) (t : Option Int) : ArxivResult :=
  { shortId := pid
    entryId := "http://arxiv.org/abs/" ++ pid
    title := "T"
    summary := "S"
    authors := ["A"]
    primaryCategory := "cs.AI"
    categories := ["cs.AI"]
    publishedDt := t
    publishedStr := "2024-06-09 12:00:00+00:00"
    pdfUrl := none }

theorem seen_ids_never_reemitted_witness :
    "2406.0001" ∈ (CrawlState.mk ["2406.0001"] none none).seenIds ∧
    "2406.0001" ∉ (fetchRun ⟨["2406.0001"], none, none⟩ 1 200
        [.ok [mkRes "2406.0001" (some 50)]]).papers.map Prod.fst ∧
    "2406.0001" ∈ (fetchRun ⟨["2406.0001"], none, none⟩ 1 200
        [.ok [mkRes "2406.0001" (some 50)]]).state.seenIds := by
  refine ⟨by decide, ?_, ?_⟩
  · exact (seen_ids_never_reemitted ⟨["2406.0001"], none, none⟩ 1 200
      [.ok [mkRes "2406.0001" (some 50)]] "2406.0001" (by decide)).1
  · exact (seen_ids_never_reemitted ⟨["2406.0001"], none, none⟩ 1 200
      [.ok [mkRes "2406.0001" (some 50)]] "2406.0001" (by decide)).2

/-! ## Configuration resolver (C4, C10) -/

/-- Claim C4, counterexample: with default 7 and a configured
`days_window` of 0 (a non-positive integer), `resolve_days_window`
returns `max(0, 1) = 1`, not `max(default, 1) = 7` as the claim states. -/
theorem days_window_counterexample :
    resolve_days_window 7 (.parsed (.obj [("arxiv_paper_setting",
        .obj [("days_window", .num 0)])])) = .ok 1 ∧
    max (7 : Int) 1 = 7 ∧ (1 : Int) ≠ 7 := by
  refine ⟨rfl, by decide, by decide⟩

/-- Claim C4 as amended: `resolve_days_window` returns a positive integer
on every non-raising path and never raises on a missing file, missing
parser dependency, malformed document, or missing key, each of which
yields `max(default, 1)`; but a days-window value that parses as an
integer `n` yields `max(n, 1)` — so a non-positive configured value gives
1 regardless of the default, not `max(default, 1)`. -/
theorem days_window_amended (d : Int) :
    resolve_days_window d .missing = .ok (max d 1) ∧
    resolve_days_window d .noYaml = .ok (max d 1) ∧
    resolve_days_window d .invalid = .ok (max d 1) ∧
    resolve_days_window d (.parsed (.obj [])) = .ok (max d 1) ∧
    (∀ n : Int, resolve_days_window d (.parsed (.obj [("arxiv_paper_setting",
        .obj [("days_window", .num n)])])) = .ok (max n 1)) ∧
    (∀ (file : ConfigFile) (res : Int),
        resolve_days_window d file = .ok res → 1 ≤ res) := by
  refine ⟨rfl, rfl, rfl, rfl, fun n => rfl, ?_⟩
  intro file res h
  cases file with
  | missing =>
    have h' : (Except.ok (max d 1) : Except String Int) = Except.ok res := h
    simp only [Except.ok.injEq] at h'
    exact h' ▸ le_max_right _ _
  | noYaml =>
    have h' : (Except.ok (max d 1) : Except String Int) = Except.ok res := h
    simp only [Except.ok.injEq] at h'
    exact h' ▸ le_max_right _ _
  | invalid =>
    have h' : (Except.ok (max d 1) : Except String Int) = Except.ok res := h
    simp only [Except.ok.injEq] at h'
    exact h' ▸ le_max_right _ _
  | parsed v =>
    simp only [resolve_days_window, load_config] at h
    repeat' split at h
    all_goals try exact Except.noConfusion h
    all_goals simp only [Except.ok.injEq] at h
    all_goals exact h ▸ le_max_right _ _

theorem days_window_amended_witness :
    resolve_days_window 7 ConfigFile.missing = Except.ok (max 7 1) ∧
    (1 : Int) ≤ max 7 1 :=
  ⟨rfl, (days_window_amended 7).2.2.2.2.2 ConfigFile.missing (max 7 1) rfl⟩

/-- Claim C10: a present but non-integer-convertible paper-specific
`days_window` yields `max(default, 1)` without consulting the generic
`crawler.days_window` key (which is quantified over arbitrary values
here), while a `None` paper-specific value falls through to the generic
key. -/
theorem paper_key_precedence (d : Int) (pv cv : JVal)
    (hpv : pv.isNull = false) (hint : pyInt pv = none) :
    resolve_days_window d (.parsed (.obj
        [("arxiv_paper_setting", .obj [("days_window", pv)]),
         ("crawler", .obj [("days_window", cv)])])) = .ok (max d 1) ∧
    ∀ k : Int, resolve_days_window d (.parsed (.obj
        [("arxiv_paper_setting", .obj [("days_window", JVal.null)]),
         ("crawler", .obj [("days_window", .num k)])])) = .ok (max k 1) := by
  constructor
  · simp [resolve_days_window, load_config, pyGetD, pyTruthy, hpv, hint]
  · intro k
    simp [resolve_days_window, load_config, pyGetD, pyTruthy, JVal.isNull, pyInt]

theorem paper_key_precedence_witness :
    JVal.isNull (.arr [.num 9]) = false ∧
    pyInt (.arr [.num 9]) = none ∧
    resolve_days_window 2 (.parsed (.obj
        [("arxiv_paper_setting", .obj [("days_window", .arr [.num 9])]),
         ("crawler", .obj [("days_window", .num 5)])])) = .ok (max 2 1) := by
  refine ⟨rfl, rfl, ?_⟩
  exact (paper_key_precedence 2 (.arr [.num 9]) (.num 5) rfl rfl).1

/-! ## State-file loading (C9) -/

/-- Claim C9, counterexample: a state file holding valid JSON whose
top-level value is truthy but not an object (the claim's "wrong shape"
case) makes both loaders raise an `AttributeError` instead of returning
the empty/`None` result: `payload.get` is evaluated outside the `try`. -/
theorem state_load_counterexample :
    load_seen_state (fun _ => none) (.json (.arr [.num 1])) =
      .error "AttributeError" ∧
    load_last_crawl_at (fun _ => none) (.json (.num 5)) =
      .error "AttributeError" :=
  ⟨rfl, rfl⟩

/-- An `if` between two `ok` results is `ok`. -/
theorem exceptOk_ite {ε α : Type} (c : Prop) [Decidable c] (a b : α) :
    exceptOk (if c then Except.ok a else Except.ok b : Except ε α) = true := by
  split <;> rfl

/-- Claim C9 as amended: loading the seen-ledger and the last-run marker
returns the empty/`None` result on a missing file or invalid JSON, and
returns normally on every dict-shaped (or falsy) payload, including ones
with wrong-typed or unparseable fields; the one failing shape is a
well-formed JSON document whose top-level value is truthy and not a dict,
which raises rather than degrading. -/
theorem state_load_amended (parseDt : String → Option Int) (file : FileContent) :
    load_seen_state parseDt .missing = .ok ([], none) ∧
    load_seen_state parseDt .invalid = .ok ([], none) ∧
    load_last_crawl_at parseDt .missing = .ok none ∧
    load_last_crawl_at parseDt .invalid = .ok none ∧
    (exceptOk (load_seen_state parseDt file) = true ∨
      ∃ v, file = .json v ∧ pyTruthy v = true ∧ v.isObj = false) ∧
    (exceptOk (load_last_crawl_at parseDt file) = true ∨
      ∃ v, file = .json v ∧ pyTruthy v = true ∧ v.isObj = false) := by
  refine ⟨rfl, rfl, rfl, rfl, ?_, ?_⟩
  · cases file with
    | missing => exact Or.inl rfl
    | invalid => exact Or.inl rfl
    | json v =>
      by_cases ht : pyTruthy v = true
      · cases v with
        | obj kvs => exact Or.inl (by simp [load_seen_state, ht, exceptOk])
        | null => simp [pyTruthy] at ht
        | bool b => exact Or.inr ⟨_, rfl, ht, rfl⟩
        | num n => exact Or.inr ⟨_, rfl, ht, rfl⟩
        | str s => exact Or.inr ⟨_, rfl, ht, rfl⟩
        | arr xs => exact Or.inr ⟨_, rfl, ht, rfl⟩
      · refine Or.inl ?_
        have ht' : pyTruthy v = false := by simpa using ht
        simp [load_seen_state, ht', exceptOk]
  · cases file with
    | missing => exact Or.inl rfl
    | invalid => exact Or.inl rfl
    | json v =>
      by_cases ht : pyTruthy v = true
      · cases v with
        | obj kvs =>
          refine Or.inl ?_
          simp only [load_last_crawl_at, ht, if_true]
          exact exceptOk_ite _ _ _
        | null => simp [pyTruthy] at ht
        | bool b => exact Or.inr ⟨_, rfl, ht, rfl⟩
        | num n => exact Or.inr ⟨_, rfl, ht, rfl⟩
        | str s => exact Or.inr ⟨_, rfl, ht, rfl⟩
        | arr xs => exact Or.inr ⟨_, rfl, ht, rfl⟩
      · refine Or.inl ?_
        have ht' : pyTruthy v = false := by simpa using ht
        simp only [load_last_crawl_at, ht', Bool.false_eq_true, if_false]
        exact exceptOk_ite _ _ _

/-! ## In-run uniqueness and idempotence (C5, C6) -/

/-- The loop invariant behind uniqueness: output keys are distinct, every
key has been added to the seen set, and every seen id is either an output
key or was loaded at run start. -/
def loopInv (seen0 : List String) (st : LoopState) : Prop :=
  (st.uniquePapers.map Prod.fst).Nodup ∧
  keysSubSeen st ∧
  ∀ x ∈ st.seenIds, x ∈ st.uniquePapers.map Prod.fst ∨ x ∈ seen0

theorem loopInv_step (seen0 : List String) (st : LoopState) (r : ArxivResult)
    (h : loopInv seen0 st) : loopInv seen0 (processResult st r) := by
  obtain ⟨hnd, hks, hsk⟩ := h
  by_cases h1 : r.shortId ∈ st.seenIds
  · rw [processResult_skip_of_seen h1]; exact ⟨hnd, hks, hsk⟩
  · by_cases h2 : r.shortId ∈ st.uniquePapers.map Prod.fst
    · rw [processResult_skip_of_key h2]; exact ⟨hnd, hks, hsk⟩
    · rw [processResult_emit h1 h2]
      refine ⟨?_, ?_, ?_⟩
      · simp only [List.map_append, List.map_cons, List.map_nil]
        rw [List.nodup_append]
        refine ⟨hnd, List.nodup_singleton _, ?_⟩
        intro a ha hpa
        rw [List.mem_singleton] at hpa
        exact h2 (hpa ▸ ha)
      · intro x hx
        simp only [List.map_append, List.map_cons, List.map_nil, List.mem_append,
          List.mem_cons, List.not_mem_nil, or_false] at hx
        rcases hx with hx | hx
        · exact List.mem_cons_of_mem _ (hks x hx)
        · exact hx ▸ List.mem_cons_self _ _
      · intro x hx
        rcases List.mem_cons.mp hx with hx | hx
        · left
          simp only [List.map_append, List.map_cons, List.map_nil]
          exact List.mem_append_right _ (hx ▸ List.mem_cons_self _ _)
        · rcases hsk x hx with hk | h0
          · left
            simp only [List.map_append, List.map_cons, List.map_nil]
            exact List.mem_append_left _ hk
          · right; exact h0

theorem loopInv_init (seen0 : List String) : loopInv seen0 (initLoop seen0) :=
  ⟨List.nodup_nil, fun x hx => absurd hx (by simp [initLoop]), fun _ hx => Or.inr hx⟩

theorem loopInv_run (seen0 : List String) (outs : List FetchOutcome) :
    loopInv seen0 (runCategories seen0 outs) :=
  catFoldlInv (loopInv seen0) (loopInv_step seen0) (fun _ h => h)
    outs (initLoop seen0) (loopInv_init seen0)

/-- Every result delivered by the iterator ends up in the seen set. -/
theorem mem_results_mem_seen : ∀ (rs : List ArxivResult) (st : LoopState),
    keysSubSeen st → ∀ r ∈ rs, r.shortId ∈ (rs.foldl processResult st).seenIds := by
  intro rs
  induction rs with
  | nil => intro st _ r hr; simp at hr
  | cons a t ih =>
    intro st hks r hr
    rcases List.mem_cons.mp hr with h | h
    · subst h
      refine foldlR_seen_mono t (processResult st r) ?_
      by_cases h1 : r.shortId ∈ st.seenIds
      · rw [processResult_skip_of_seen h1]; exact h1
      · by_cases h2 : r.shortId ∈ st.uniquePapers.map Prod.fst
        · rw [processResult_skip_of_key h2]; exact hks _ h2
        · rw [processResult_emit h1 h2]; exact List.mem_cons_self _ _
    · exact ih (processResult st a) (keysSubSeen_step st a hks) r h

theorem keysSubSeen_cat (st : LoopState) (o : FetchOutcome)
    (h : keysSubSeen st) : keysSubSeen (processCategory st o) :=
  processCategory_inv keysSubSeen keysSubSeen_step (fun _ hp => hp) st o h

theorem mem_outs_mem_seen : ∀ (outs : List FetchOutcome) (st : LoopState),
    keysSubSeen st → ∀ o ∈ outs, ∀ r ∈ outcomeResults o,
      r.shortId ∈ (outs.foldl processCategory st).seenIds := by
  intro outs
  induction outs with
  | nil => intro st _ o ho; simp at ho
  | cons a t ih =>
    intro st hks o ho r hr
    rcases List.mem_cons.mp ho with h | h
    · subst h
      refine foldlC_seen_mono t (processCategory st o) ?_
      rw [processCategory_seen_eq]
      exact mem_results_mem_seen _ st hks r hr
    · exact ih (processCategory st a) (keysSubSeen_cat st a hks) o h r hr

/-- Claim C5: within one run's output collection `id` is a unique key —
the key list is duplicate-free — and a record whose identifier is
delivered by at least one category and was not already in the seen-ids
at run start appears exactly once in the merged output. -/
theorem output_ids_unique (st0 : CrawlState) (days now : Int)
    (outs : List FetchOutcome) :
    ((fetchRun st0 days now outs).papers.map Prod.fst).Nodup ∧
    ∀ pid, pid ∉ st0.seenIds →
      (∃ o ∈ outs, ∃ r ∈ outcomeResults o, r.shortId = pid) →
      ((fetchRun st0 days now outs).papers.map Prod.fst).count pid = 1 := by
  have hinv := loopInv_run st0.seenIds outs
  constructor
  · exact hinv.1
  · rintro pid hpid ⟨o, ho, r, hr, hid⟩
    have hseen : pid ∈ (runCategories st0.seenIds outs).seenIds :=
      hid ▸ mem_outs_mem_seen outs (initLoop st0.seenIds)
        (fun x hx => absurd hx (by simp [initLoop])) o ho r hr
    rcases hinv.2.2 pid hseen with hk | h0
    · exact List.count_eq_one_of_mem hinv.1 hk
    · exact absurd h0 hpid

theorem output_ids_unique_witness :
    "2406.0001" ∉ ([] : List String) ∧
    (∃ o ∈ [FetchOutcome.ok [mkRes "2406.0001" (some 10)],
            FetchOutcome.ok [mkRes "2406.0001" (some 10)]],
      ∃ r ∈ outcomeResults o, r.shortId = "2406.0001") ∧
    ((fetchRun ⟨[], none, none⟩ 3 200
        [FetchOutcome.ok [mkRes "2406.0001" (some 10)],
         FetchOutcome.ok [mkRes "2406.0001" (some 10)]]).papers.map
        Prod.fst).count "2406.0001" = 1 := by
  refine ⟨by decide, ⟨_, List.mem_cons_self _ _, mkRes "2406.0001" (some 10),
    List.mem_cons_self _ _, rfl⟩, ?_⟩
  exact (output_ids_unique ⟨[], none, none⟩ 3 200
      [FetchOutcome.ok [mkRes "2406.0001" (some 10)],
       FetchOutcome.ok [mkRes "2406.0001" (some 10)]]).2 "2406.0001"
    (by decide)
    ⟨_, List.mem_cons_self _ _, mkRes "2406.0001" (some 10),
      List.mem_cons_self _ _, rfl⟩

/-- Skipping is a no-op: a result whose id is already seen leaves the
state untouched, so a whole already-seen batch leaves the fold fixed. -/
theorem foldlR_skip_all : ∀ (rs : List ArxivResult) (st : LoopState),
    (∀ r ∈ rs, r.shortId ∈ st.seenIds) → rs.foldl processResult st = st := by
  intro rs
  induction rs with
  | nil => intro st _; rfl
  | cons a t ih =>
    intro st h
    rw [List.foldl_cons, processResult_skip_of_seen (h a (List.mem_cons_self _ _))]
    exact ih st (fun r hr => h r (List.mem_cons_of_mem _ hr))

theorem foldlC_skip_all : ∀ (outs : List FetchOutcome) (st : LoopState),
    (∀ o ∈ outs, ∀ r ∈ outcomeResults o, r.shortId ∈ st.seenIds) →
    ((outs.foldl processCategory st).uniquePapers = st.uniquePapers ∧
      (outs.foldl processCategory st).seenIds = st.seenIds ∧
      (outs.foldl processCategory st).maxPublishedNew = st.maxPublishedNew) := by
  intro outs
  induction outs with
  | nil => intro st _; exact ⟨rfl, rfl, rfl⟩
  | cons a t ih =>
    intro st h
    have hfold : (outcomeResults a).foldl processResult st = st :=
      foldlR_skip_all _ st (h a (List.mem_cons_self _ _))
    have hfields : (processCategory st a).uniquePapers = st.uniquePapers ∧
        (processCategory st a).seenIds = st.seenIds ∧
        (processCategory st a).maxPublishedNew = st.maxPublishedNew := by
      cases a with
      | ok rs =>
        have hfold' : rs.foldl processResult st = st := hfold
        exact ⟨by rw [show (processCategory st (.ok rs)).uniquePapers =
            (rs.foldl processResult st).uniquePapers from rfl, hfold'],
          by rw [show (processCategory st (.ok rs)).seenIds =
            (rs.foldl processResult st).seenIds from rfl, hfold'],
          by rw [show (processCategory st (.ok rs)).maxPublishedNew =
            (rs.foldl processResult st).maxPublishedNew from rfl, hfold']⟩
      | err rs =>
        have hfold' : rs.foldl processResult st = st := hfold
        exact ⟨by rw [show (processCategory st (.err rs)).uniquePapers =
            (rs.foldl processResult st).uniquePapers from rfl, hfold'],
          by rw [show (processCategory st (.err rs)).seenIds =
            (rs.foldl processResult st).seenIds from rfl, hfold'],
          by rw [show (processCategory st (.err rs)).maxPublishedNew =
            (rs.foldl processResult st).maxPublishedNew from rfl, hfold']⟩
    obtain ⟨hp, hs, hm⟩ := hfields
    obtain ⟨hp2, hs2, hm2⟩ := ih (processCategory st a)
      (fun o ho r hr => by rw [hs]; exact h o (List.mem_cons_of_mem _ ho) r hr)
    exact ⟨by rw [List.foldl_cons, hp2, hp],
      by rw [List.foldl_cons, hs2, hs],
      by rw [List.foldl_cons, hm2, hm]⟩

theorem fetchRun_written (st : CrawlState) (days now : Int)
    (outs : List FetchOutcome) :
    (fetchRun st days now outs).outputWritten =
      !(fetchRun st days now outs).papers.isEmpty := rfl

/-- Claim C6: running the crawl a second time with identical upstream
outcomes starting from the state persisted by the first run yields an
empty output collection, and no batch file is written. -/
theorem second_run_idempotent (st0 : CrawlState) (days now : Int)
    (outs : List FetchOutcome) :
    (fetchRun (fetchRun st0 days now outs).state days now outs).papers = [] ∧
    (fetchRun (fetchRun st0 days now outs).state days now outs).outputWritten
      = false := by
  have hall : ∀ o ∈ outs, ∀ r ∈ outcomeResults o,
      r.shortId ∈ (runCategories st0.seenIds outs).seenIds :=
    fun o ho r hr => mem_outs_mem_seen outs (initLoop st0.seenIds)
      (fun x hx => absurd hx (by simp [initLoop])) o ho r hr
  obtain ⟨hp, _, _⟩ := foldlC_skip_all outs
    (initLoop (runCategories st0.seenIds outs).seenIds)
    (fun o ho r hr => hall o ho r hr)
  have hpap : (fetchRun (fetchRun st0 days now outs).state days now outs).papers
      = [] := hp
  refine ⟨hpap, ?_⟩
  rw [fetchRun_written, hpap]
  rfl

/-! ## High-water mark (C3) -/

/-- The records emitted during the in-category loop, in emission order.
This replays the crawler's own accept test (not seen across runs, not
collected earlier this run) and is the meaning of spec section 3's
"records emitted": the spec-side reading against which the persisted
high-water mark is compared. -/
def emittedIn (st : LoopState) : List ArxivResult → List ArxivResult
  | [] => []
  | r :: rs =>
    if r.shortId ∉ st.seenIds ∧ r.shortId ∉ st.uniquePapers.map Prod.fst then
      r :: emittedIn (processResult st r) rs
    else emittedIn (processResult st r) rs

/-- The records emitted across the whole category loop. -/
def emittedInCats (st : LoopState) : List FetchOutcome → List ArxivResult
  | [] => []
  | o :: os =>
    emittedIn st (outcomeResults o) ++ emittedInCats (processCategory st o) os

/-- The records emitted by one full run. -/
def runEmitted (seen0 : List String) (outs : List FetchOutcome) : List ArxivResult :=
  emittedInCats (initLoop seen0) outs

/-- `mp` is the maximum of the time list `ts` (`none` iff `ts` is empty). -/
def isMaxOf (mp : Option Int) (ts : List Int) : Prop :=
  (mp = none ∧ ts = []) ∨ ∃ m, mp = some m ∧ m ∈ ts ∧ ∀ t ∈ ts, t ≤ m

theorem updateMax_isMaxOf (mp : Option Int) (ts : List Int) (p : Option Int)
    (h : isMaxOf mp ts) : isMaxOf (updateMax mp p) (ts ++ p.toList) := by
  cases p with
  | none => simpa [updateMax] using h
  | some t =>
    rcases h with ⟨hmp, hts⟩ | ⟨m, hm, hmem, hmax⟩
    · subst hmp; subst hts
      exact Or.inr ⟨t, rfl, by simp, by simp⟩
    · subst hm
      by_cases hgt : t > m
      · refine Or.inr ⟨t, by simp [updateMax, hgt], by simp, ?_⟩
        intro x hx
        rcases List.mem_append.mp hx with hx | hx
        · exact le_of_lt (lt_of_le_of_lt (hmax x hx) hgt)
        · simp at hx; omega
      · refine Or.inr ⟨m, by simp [updateMax, hgt], List.mem_append_left _ hmem, ?_⟩
        intro x hx
        rcases List.mem_append.mp hx with hx | hx
        · exact hmax x hx
        · simp at hx; omega

theorem maxInv_results : ∀ (rs : List ArxivResult) (st : LoopState) (ts : List Int),
    isMaxOf st.maxPublishedNew ts →
    isMaxOf ((rs.foldl processResult st).maxPublishedNew)
      (ts ++ (emittedIn st rs).filterMap (fun r => r.publishedDt)) := by
  intro rs
  induction rs with
  | nil => intro st ts h; simpa [emittedIn] using h
  | cons r0 rs0 ih =>
    intro st ts h
    rw [List.foldl_cons]
    by_cases hf : r0.shortId ∉ st.seenIds ∧ r0.shortId ∉ st.uniquePapers.map Prod.fst
    · have hst : (processResult st r0).maxPublishedNew =
          updateMax st.maxPublishedNew r0.publishedDt := by
        rw [processResult_emit hf.1 hf.2]
      have h2 : isMaxOf ((processResult st r0).maxPublishedNew)
          (ts ++ r0.publishedDt.toList) := by
        rw [hst]; exact updateMax_isMaxOf _ _ _ h
      have h3 := ih (processResult st r0) (ts ++ r0.publishedDt.toList) h2
      rw [show emittedIn st (r0 :: rs0) = r0 :: emittedIn (processResult st r0) rs0
        from by rw [emittedIn, if_pos hf]]
      rcases hpd : r0.publishedDt with _ | tval
      · simpa [List.filterMap_cons, hpd] using h3
      · simpa [List.filterMap_cons, hpd, List.append_assoc] using h3
    · have hskip : processResult st r0 = st := by
        rcases not_and_or.mp hf with h1 | h1
        · exact processResult_skip_of_seen (not_not.mp h1)
        · exact processResult_skip_of_key (not_not.mp h1)
      rw [show emittedIn st (r0 :: rs0) = emittedIn (processResult st r0) rs0
        from by rw [emittedIn, if_neg hf]]
      rw [hskip]
      exact ih st ts h

theorem maxInv_cats : ∀ (outs : List FetchOutcome) (st : LoopState) (ts : List Int),
    isMaxOf st.maxPublishedNew ts →
    isMaxOf ((outs.foldl processCategory st).maxPublishedNew)
      (ts ++ (emittedInCats st outs).filterMap (fun r => r.publishedDt)) := by
  intro outs
  induction outs with
  | nil => intro st ts h; simpa [emittedInCats] using h
  | cons o os ih =>
    intro st ts h
    rw [List.foldl_cons]
    have h1 : isMaxOf ((processCategory st o).maxPublishedNew)
        (ts ++ (emittedIn st (outcomeResults o)).filterMap (fun r => r.publishedDt)) := by
      rw [processCategory_max_eq]
      exact maxInv_results _ st ts h
    have h2 := ih (processCategory st o) _ h1
    rw [show emittedInCats st (o :: os) =
      emittedIn st (outcomeResults o) ++ emittedInCats (processCategory st o) os
      from rfl]
    simpa [List.filterMap_append, List.append_assoc] using h2

/-- The persisted `latest_published_at` as a function of the loop's
running maximum (lines 264-267). -/
theorem fetchRun_latest (st0 : CrawlState) (days now : Int)
    (outs : List FetchOutcome) :
    (fetchRun st0 days now outs).state.latestPublishedAt =
      match (runCategories st0.seenIds outs).maxPublishedNew with
      | some t => some t
      | none => st0.latestPublishedAt := rfl

/-- Claim C3, counterexample: a run that emits one record published at 50
overwrites a persisted `latest_published_at` of 100 with 50, so the
persisted value is not the maximum over all records ever emitted and in
particular decreases below the value persisted before the run. -/
theorem latest_published_counterexample :
    (CrawlState.mk [] (some 100) none).latestPublishedAt = some 100 ∧
    (fetchRun ⟨[], some 100, none⟩ 1 200
        [.ok [mkRes "2406.0002" (some 50)]]).state.latestPublishedAt = some 50 ∧
    ¬(100 : Int) ≤ 50 := by
  refine ⟨rfl, rfl, by decide⟩

/-- Claim C3 as amended: after a run, the persisted `latest_published_at`
equals the maximum `published` timestamp among the records emitted in
this run when at least one emitted record carries a timestamp, and
otherwise the value loaded at run start; it is not in general monotone
across runs. -/
theorem latest_published_amended (st0 : CrawlState) (days now : Int)
    (outs : List FetchOutcome) :
    ((runEmitted st0.seenIds outs).filterMap (fun r => r.publishedDt) = [] →
      (fetchRun st0 days now outs).state.latestPublishedAt
        = st0.latestPublishedAt) ∧
    ((runEmitted st0.seenIds outs).filterMap (fun r => r.publishedDt) ≠ [] →
      ∃ m, (fetchRun st0 days now outs).state.latestPublishedAt = some m ∧
        m ∈ (runEmitted st0.seenIds outs).filterMap (fun r => r.publishedDt) ∧
        ∀ t ∈ (runEmitted st0.seenIds outs).filterMap (fun r => r.publishedDt),
          t ≤ m) := by
  have hmax := maxInv_cats outs (initLoop st0.seenIds) [] (Or.inl ⟨rfl, rfl⟩)
  rw [List.nil_append] at hmax
  constructor
  · intro hts
    rw [show (runEmitted st0.seenIds outs).filterMap (fun r => r.publishedDt) =
      (emittedInCats (initLoop st0.seenIds) outs).filterMap (fun r => r.publishedDt)
      from rfl] at hts
    rw [hts] at hmax
    rcases hmax with ⟨hnone, _⟩ | ⟨m, _, hmem, _⟩
    · rw [fetchRun_latest]
      rw [show (runCategories st0.seenIds outs).maxPublishedNew =
        (outs.foldl processCategory (initLoop st0.seenIds)).maxPublishedNew
        from rfl, hnone]
    · simp at hmem
  · intro hts
    rcases hmax with ⟨_, habs⟩ | ⟨m, hm, hmem, hmaxall⟩
    · exact absurd habs hts
    · refine ⟨m, ?_, hmem, hmaxall⟩
      rw [fetchRun_latest]
      rw [show (runCategories st0.seenIds outs).maxPublishedNew =
        (outs.foldl processCategory (initLoop st0.seenIds)).maxPublishedNew
        from rfl, hm]

theorem latest_published_amended_witness :
    (runEmitted [] [FetchOutcome.ok [mkRes "2406.0002" (some 50)]]).filterMap
        (fun r => r.publishedDt) ≠ [] ∧
    ∃ m, (fetchRun ⟨[], some 100, none⟩ 1 200
        [FetchOutcome.ok [mkRes "2406.0002" (some 50)]]).state.latestPublishedAt
        = some m ∧
      m ∈ (runEmitted [] [FetchOutcome.ok [mkRes "2406.0002" (some 50)]]).filterMap
        (fun r => r.publishedDt) ∧
      ∀ t ∈ (runEmitted []
          [FetchOutcome.ok [mkRes "2406.0002" (some 50)]]).filterMap
          (fun r => r.publishedDt), t ≤ m := by
  have hne : (runEmitted [] [FetchOutcome.ok [mkRes "2406.0002" (some 50)]]).filterMap
      (fun r => r.publishedDt) ≠ [] := by decide
  exact ⟨hne, (latest_published_amended ⟨[], some 100, none⟩ 1 200
    [FetchOutcome.ok [mkRes "2406.0002" (some 50)]]).2 hne⟩

/-! ## Empty runs (C7) -/

theorem processResult_eq_of_papers (st : LoopState) (r : ArxivResult)
    (h : (processResult st r).uniquePapers = st.uniquePapers) :
    processResult st r = st := by
  by_cases h1 : r.shortId ∈ st.seenIds
  · exact processResult_skip_of_seen h1
  · by_cases h2 : r.shortId ∈ st.uniquePapers.map Prod.fst
    · exact processResult_skip_of_key h2
    · exfalso
      rw [processResult_emit h1 h2] at h
      simpa using congrArg List.length h

theorem foldlR_eq_of_papers : ∀ (rs : List ArxivResult) (st : LoopState),
    (rs.foldl processResult st).uniquePapers = st.uniquePapers →
    rs.foldl processResult st = st := by
  intro rs
  induction rs with
  | nil => intro st _; rfl
  | cons a t ih =>
    intro st h
    rw [List.foldl_cons] at h ⊢
    have m1 := processResult_papers_mono st a
    have m2 := foldlR_papers_mono t (processResult st a)
    have hlen : st.uniquePapers.length = (processResult st a).uniquePapers.length := by
      have l1 := m1.length_le
      have l2 := m2.length_le
      rw [h] at l2
      omega
    have hpap : (processResult st a).uniquePapers = st.uniquePapers :=
      (m1.eq_of_length hlen).symm
    have hstep := processResult_eq_of_papers st a hpap
    rw [hstep] at h ⊢
    exact ih st h

theorem catFoldl_eq_fields : ∀ (outs : List FetchOutcome) (st : LoopState),
    (outs.foldl processCategory st).uniquePapers = st.uniquePapers →
    ((outs.foldl processCategory st).seenIds = st.seenIds ∧
      (outs.foldl processCategory st).maxPublishedNew = st.maxPublishedNew) := by
  intro outs
  induction outs with
  | nil => intro st _; exact ⟨rfl, rfl⟩
  | cons o os ih =>
    intro st h
    rw [List.foldl_cons] at h ⊢
    have m1 : st.uniquePapers <+: (processCategory st o).uniquePapers := by
      rw [processCategory_papers_eq]
      exact foldlR_papers_mono _ _
    have m2 := foldlC_papers_mono os (processCategory st o)
    have hlen : st.uniquePapers.length = (processCategory st o).uniquePapers.length := by
      have l1 := m1.length_le
      have l2 := m2.length_le
      rw [h] at l2
      omega
    have hpap : (processCategory st o).uniquePapers = st.uniquePapers :=
      (m1.eq_of_length hlen).symm
    have hres : (outcomeResults o).foldl processResult st = st := by
      apply foldlR_eq_of_papers
      rw [← processCategory_papers_eq]
      exact hpap
    have hseen : (processCategory st o).seenIds = st.seenIds := by
      rw [processCategory_seen_eq, hres]
    have hmax : (processCategory st o).maxPublishedNew = st.maxPublishedNew := by
      rw [processCategory_max_eq, hres]
    obtain ⟨hs2, hm2⟩ := ih (processCategory st o) (by rw [hpap]; exact h)
    exact ⟨by rw [hs2, hseen], by rw [hm2, hmax]⟩

/-- Claim C7, counterexample: a zero-result run does persist
`last_crawl_at = end`, but when a stale `latest_published_at` is present
it keeps window priority, so the next run's window starts at exactly the
same point rather than later. -/
theorem empty_run_counterexample :
    (fetchRun ⟨[], some 100, none⟩ 1 200 []).papers = [] ∧
    (fetchRun ⟨[], some 100, none⟩ 1 200 []).state.lastCrawlAt = some 200 ∧
    (fetchRun (fetchRun ⟨[], some 100, none⟩ 1 200 []).state 1 260 []).window.1 =
      (fetchRun ⟨[], some 100, none⟩ 1 200 []).window.1 := by
  refine ⟨rfl, rfl, ?_⟩
  decide

/-- Claim C7 as amended: when a run collects zero new records the batch
write is skipped and the warning branch taken, while the seen-state is
persisted unchanged and the last-run marker is set to the run's end; the
next run's window then starts strictly later only when no
`latest_published_at` is persisted — a persisted `latest_published_at`
keeps priority and can pin the next start to the same point. -/
theorem empty_run_amended (st0 : CrawlState) (days now : Int)
    (outs : List FetchOutcome)
    (h : (fetchRun st0 days now outs).papers = []) :
    (fetchRun st0 days now outs).outputWritten = false ∧
    (fetchRun st0 days now outs).warnedNoPapers = true ∧
    (fetchRun st0 days now outs).state.seenIds = st0.seenIds ∧
    (fetchRun st0 days now outs).state.latestPublishedAt
      = st0.latestPublishedAt ∧
    (fetchRun st0 days now outs).state.lastCrawlAt = some now ∧
    (st0.latestPublishedAt = none →
      ∀ (days' now' : Int) (outs' : List FetchOutcome), now < now' →
        (fetchRun st0 days now outs).window.1 <
          (fetchRun (fetchRun st0 days now outs).state days' now' outs').window.1) := by
  have hpap : (outs.foldl processCategory (initLoop st0.seenIds)).uniquePapers =
      (initLoop st0.seenIds).uniquePapers := h
  obtain ⟨hseen, hmaxp⟩ := catFoldl_eq_fields outs (initLoop st0.seenIds) hpap
  have hmaxn : (runCategories st0.seenIds outs).maxPublishedNew = none := hmaxp
  refine ⟨?_, ?_, ?_, ?_, rfl, ?_⟩
  · rw [fetchRun_written, h]; rfl
  · have hw : (fetchRun st0 days now outs).warnedNoPapers =
        !(!(fetchRun st0 days now outs).papers.isEmpty) := rfl
    rw [hw, h]; rfl
  · exact hseen
  · rw [fetchRun_latest, hmaxn]
  · intro hlat days' now' outs' hnn
    have h1 : (fetchRun st0 days now outs).window.1 < now := resolveStart_lt _ _ _ _
    have hst1 : (fetchRun st0 days now outs).state.latestPublishedAt = none := by
      rw [fetchRun_latest, hmaxn]; exact hlat
    have hst2 : (fetchRun st0 days now outs).state.lastCrawlAt = some now := rfl
    have hw2 : (fetchRun (fetchRun st0 days now outs).state days' now' outs').window.1 =
        resolveStart now' days' ((fetchRun st0 days now outs).state.latestPublishedAt)
          ((fetchRun st0 days now outs).state.lastCrawlAt) := rfl
    rw [hw2, hst1, hst2]
    have h2 : now ≤ resolveStart now' days' none (some now) := by
      unfold resolveStart
      dsimp only
      split
      · omega
      · exact le_max_left _ _
    omega

theorem empty_run_amended_witness :
    (fetchRun ⟨[], none, none⟩ 1 200 []).papers = [] ∧
    (fetchRun ⟨[], none, none⟩ 1 200 []).outputWritten = false ∧
    (fetchRun ⟨[], none, none⟩ 1 200 []).state.lastCrawlAt = some 200 ∧
    (fetchRun ⟨[], none, none⟩ 1 200 []).window.1 <
      (fetchRun (fetchRun ⟨[], none, none⟩ 1 200 []).state 1 300 []).window.1 := by
  have h : (fetchRun ⟨[], none, none⟩ 1 200 []).papers = [] := rfl
  exact ⟨h, (empty_run_amended ⟨[], none, none⟩ 1 200 [] h).1,
    (empty_run_amended ⟨[], none, none⟩ 1 200 [] h).2.2.2.2.1,
    (empty_run_amended ⟨[], none, none⟩ 1 200 [] h).2.2.2.2.2 rfl 1 300 []
      (by decide)⟩

/-! ## Per-category failure isolation (C8) -/

theorem foldlR_backoffs : ∀ (rs : List ArxivResult) (st : LoopState),
    (rs.foldl processResult st).backoffs = st.backoffs := by
  intro rs
  induction rs with
  | nil => intro st; rfl
  | cons a t ih => intro st; rw [List.foldl_cons, ih, processResult_backoffs]

/-- Claim C8: a mid-pagination failure in one category (`err p`, where
`p` is what the iterator yielded before raising) does not abort the run:
the loop state is exactly the fold over the remaining categories after a
5-unit backoff is recorded, and every record collected by the earlier
categories survives, in order, into the final output and its id into the
persisted seen-ids. -/
theorem category_failure_isolated (st0 : CrawlState) (days now : Int)
    (pre : List FetchOutcome) (p : List ArxivResult) (post : List FetchOutcome) :
    (fetchRun st0 days now (pre ++ FetchOutcome.err p :: post)).papers =
      (post.foldl processCategory
        (processCategory (pre.foldl processCategory (initLoop st0.seenIds))
          (FetchOutcome.err p))).uniquePapers ∧
    (processCategory (pre.foldl processCategory (initLoop st0.seenIds))
        (FetchOutcome.err p)).backoffs =
      (pre.foldl processCategory (initLoop st0.seenIds)).backoffs ++ [5] ∧
    (pre.foldl processCategory (initLoop st0.seenIds)).uniquePapers <+:
      (fetchRun st0 days now (pre ++ FetchOutcome.err p :: post)).papers ∧
    ∀ pr ∈ (pre.foldl processCategory (initLoop st0.seenIds)).uniquePapers,
      pr.1 ∈ (fetchRun st0 days now (pre ++ FetchOutcome.err p :: post)).state.seenIds := by
  have hsplit : (pre ++ FetchOutcome.err p :: post).foldl processCategory
      (initLoop st0.seenIds) =
      post.foldl processCategory
        (processCategory (pre.foldl processCategory (initLoop st0.seenIds))
          (FetchOutcome.err p)) := by
    rw [List.foldl_append, List.foldl_cons]
  refine ⟨congrArg LoopState.uniquePapers hsplit, ?_, ?_, ?_⟩
  · show ((outcomeResults (FetchOutcome.err p)).foldl processResult
        (pre.foldl processCategory (initLoop st0.seenIds))).backoffs ++ [5] = _
    rw [foldlR_backoffs]
  · show (pre.foldl processCategory (initLoop st0.seenIds)).uniquePapers <+:
      ((pre ++ FetchOutcome.err p :: post).foldl processCategory
        (initLoop st0.seenIds)).uniquePapers
    rw [List.foldl_append]
    exact foldlC_papers_mono _ _
  · intro pr hpr
    have hks : keysSubSeen (pre.foldl processCategory (initLoop st0.seenIds)) :=
      catFoldlInv keysSubSeen keysSubSeen_step (fun _ hp => hp) pre _
        (keysSubSeen_init _)
    have hseen : pr.1 ∈ (pre.foldl processCategory (initLoop st0.seenIds)).seenIds :=
      hks pr.1 (List.mem_map.mpr ⟨pr, hpr, rfl⟩)
    show pr.1 ∈ ((pre ++ FetchOutcome.err p :: post).foldl processCategory
      (initLoop st0.seenIds)).seenIds
    rw [List.foldl_append]
    exact foldlC_seen_mono _ _ hseen

theorem category_failure_isolated_witness :
    ("2406.0003", makeRecord (mkRes "2406.0003" (some 10))) ∈
      ([FetchOutcome.ok [mkRes "2406.0003" (some 10)]].foldl processCategory
        (initLoop ([] : List String))).uniquePapers ∧
    "2406.0003" ∈ (fetchRun ⟨[], none, none⟩ 1 200
        ([FetchOutcome.ok [mkRes "2406.0003" (some 10)]] ++
          FetchOutcome.err [mkRes "2406.0004" none] ::
            [FetchOutcome.ok [mkRes "2406.0005" (some 20)]])).state.seenIds := by
  have hpr : ("2406.0003", makeRecord (mkRes "2406.0003" (some 10))) ∈
      ([FetchOutcome.ok [mkRes "2406.0003" (some 10)]].foldl processCategory
        (initLoop ([] : List String))).uniquePapers := by
    show _ ∈ [("2406.0003", makeRecord (mkRes "2406.0003" (some 10)))]
    exact List.mem_cons_self _ _
  exact ⟨hpr, (category_failure_isolated ⟨[], none, none⟩ 1 200
      [FetchOutcome.ok [mkRes "2406.0003" (some 10)]]
      [mkRes "2406.0004" none]
      [FetchOutcome.ok [mkRes "2406.0005" (some 20)]]).2.2.2
    ("2406.0003", makeRecord (mkRes "2406.0003" (some 10))) hpr⟩
